import Mathlib

/-!
Verification of the Scriptflow backend against its specification.

Strings are modelled as lists of characters (`Str`), JavaScript's `URL`
object as a record of its components, the Redis counter store as a total
function from keys to natural numbers (a missing key reads 0), and the
MongoDB collections as lists of records.  External libraries (`crypto`'s
SHA-256) are passed in as function parameters.  All definitions are
translated from the TypeScript sources of the repository.
-/

namespace ScriptFlow

/-- JavaScript strings, modelled as lists of characters. -/
abbrev Str := List Char

/-- JS `String.prototype.startsWith`: does `s` start with `pat`? -/
def strStarts : Str → Str → Bool
  | _, [] => true
  | [], _ :: _ => false
  | c :: s, p :: ps => c == p && strStarts s ps

/-- JS `String.prototype.endsWith`: does `s` end with `pat`? -/
def strEnds (s pat : Str) : Bool :=
  strStarts s.reverse pat.reverse

/-- JS `String.prototype.includes`: does `s` contain `pat` as a contiguous substring? -/
def containsSub : Str → Str → Bool
  | [], pat => strStarts [] pat
  | c :: s, pat => strStarts (c :: s) pat || containsSub s pat

/-- JS `String.prototype.replace(pat, rep)` with a string pattern: replaces
only the first occurrence of `pat` (the patterns used by the source are
never empty, and the replacements contain no `$` sequences). -/
def replaceFirst : Str → Str → Str → Str
  | [], _, _ => []
  | c :: s, pat, rep =>
    if strStarts (c :: s) pat then rep ++ (c :: s).drop pat.length
    else c :: replaceFirst s pat rep

/-- Whitespace characters removed by JS `String.prototype.trim`. -/
def isJsSpace (c : Char) : Bool :=
  c == ' ' || c == '\t' || c == '\n' || c == '\r'

/-- JS `String.prototype.trim`. -/
def jsTrim (s : Str) : Str :=
  ((s.dropWhile isJsSpace).reverse.dropWhile isJsSpace).reverse

/-- JS `String.prototype.toLowerCase` (ASCII fragment). -/
def toLowerStr (s : Str) : Str :=
  s.map Char.toLower

/-- Decimal rendering of a number, as in JS template interpolation. -/
def natToChars (n : Nat) : Str :=
  (Nat.repr n).data

/-! Section: The WHATWG `URL` object (the fragment used by `src/utils/hash.ts`)

`normalizeInstagramUrl` parses the URL, clears `search`, rewrites
`pathname` and serializes.  We model the components the source touches:
scheme, host (including any port), pathname, search and hash/fragment. -/

structure JsUrl where
  scheme : Str
  host : Str
  pathname : Str
  search : Str
  fragment : Str
deriving DecidableEq, Repr

/-- Characters allowed in a URL scheme. -/
def isSchemeChar (c : Char) : Bool :=
  c.isAlpha || c.isDigit || c == '+' || c == '-' || c == '.'

/-- A scheme is non-empty, starts with a letter, and uses scheme characters. -/
def schemeOk (s : Str) : Bool :=
  match s with
  | [] => false
  | c :: _ => c.isAlpha && s.all isSchemeChar

/-- Characters ending the authority (host) component. -/
def isHostEnd (c : Char) : Bool :=
  c == '/' || c == '?' || c == '#'

/-- Characters ending the path component. -/
def isPathEnd (c : Char) : Bool :=
  c == '?' || c == '#'

/-- Embedding of `new URL(u)`: split `scheme://host[path][?search][#fragment]`; fails
(throws, i.e. returns `none`) without a scheme, `://` or a host. -/
def parseUrl (u : Str) : Option JsUrl :=
  let scheme := u.takeWhile (fun c => c != ':')
  let rest := u.dropWhile (fun c => c != ':')
  if schemeOk scheme && strStarts rest "://".data then
    let afterAuth := rest.drop 3
    let host := afterAuth.takeWhile (fun c => !isHostEnd c)
    if host.isEmpty then none
    else
      let rest2 := afterAuth.dropWhile (fun c => !isHostEnd c)
      let pathname := rest2.takeWhile (fun c => !isPathEnd c)
      let rest3 := rest2.dropWhile (fun c => !isPathEnd c)
      let search := rest3.takeWhile (fun c => c != '#')
      let frag := rest3.dropWhile (fun c => c != '#')
      some ⟨scheme, host, pathname, search, frag⟩
  else none

/-- Embedding of `URL.prototype.toString`: reassemble the components (`search` carries
its leading `?` and `fragment` its leading `#` when present). -/
def JsUrl.toStr (url : JsUrl) : Str :=
  url.scheme ++ "://".data ++ url.host ++ url.pathname ++ url.search ++ url.fragment

/-- Embedding of `pathname.endsWith('/') ? pathname.slice(0, -1) : pathname` from
`normalizeInstagramUrl`. -/
def dropTrailingSlash (p : Str) : Str :=
  if strEnds p "/".data then p.dropLast else p

/-- The pathname rewrite performed by `normalizeInstagramUrl`: strip one
trailing slash, then substitute the first `/reels/` with `/reel/`. -/
def canonPath (p : Str) : Str :=
  replaceFirst (dropTrailingSlash p) "/reels/".data "/reel/".data

/-- Embedding of `normalizeInstagramUrl` from `src/utils/hash.ts`: parse, clear all
query parameters, normalize the pathname, serialize; on parse failure
return the input unchanged. -/
def normalizeInstagramUrl (u : Str) : Str :=
  match parseUrl u with
  | none => u
  | some url => JsUrl.toStr { url with search := [], pathname := canonPath url.pathname }

/-- Embedding of `generateReelHash` (tier-1 key): SHA-256 of the normalized URL.  The
`crypto` library's SHA-256 is external to the repository and is passed in
as a function parameter. -/
def generateReelHash (sha256 : Str → Str) (reelUrl : Str) : Str :=
  sha256 (normalizeInstagramUrl reelUrl)

/-- Embedding of `generateRequestHashV2` (tier-2 key) from `src/utils/hash.ts`: the
version-2 request hash over (subscriber, normalized URL, lowercased and
trimmed idea, variation index, mode). -/
def generateRequestHashV2 (sha256 : Str → Str) (manychatUserId reelUrl userIdea : Str)
    (variationIndex : Nat) (mode : Str) : Str :=
  let normalizedUrl := normalizeInstagramUrl reelUrl
  let normalizedIdea := jsTrim (toLowerStr userIdea)
  let genMode := if (jsTrim mode).isEmpty then "full".data else jsTrim mode
  let data := "v2:".data ++ manychatUserId ++ ":".data ++ normalizedUrl ++ ":".data
      ++ normalizedIdea ++ ":".data ++ natToChars variationIndex ++ ":".data ++ genMode
  sha256 data

/-! Section: Session manager (`src/services/sessionManager.ts`)

The Redis counter store is modelled as a total function from keys to
naturals; a key that was never written (or whose TTL expired) reads 0, as
`redis.incr` treats a missing key as 0.  The TTL refresh (`redis.expire`)
only extends the key's lifetime and does not change its value, so it has
no counterpart here. -/

/-- Redis counters: key to current integer value (missing key reads 0). -/
abbrev RedisNat := Str → Nat

/-- Embedding of `redis.incr key`: atomically increment and return the new value. -/
def redisIncr (store : RedisNat) (key : Str) : RedisNat × Nat :=
  let v := store key + 1
  (fun k => if k = key then v else store k, v)

/-- Embedding of `SOFT_VARIATION_LIMIT` from `sessionManager.ts`. -/
def SOFT_VARIATION_LIMIT : Nat := 5

/-- Embedding of `getVariationKey`: `variation:<subscriber>:<url>:<idea lowercased, trimmed, first 100>`. -/
def getVariationKey (subscriberId reelUrl userIdea : Str) : Str :=
  let normalizedIdea := (jsTrim (toLowerStr userIdea)).take 100
  "variation:".data ++ subscriberId ++ ":".data ++ reelUrl ++ ":".data ++ normalizedIdea

/-- Result record of `SessionManager.getAndIncrementVariation`. -/
structure VariationResult where
  variationIndex : Nat
  isMaxReached : Bool
  isSoftLimitReached : Bool
  totalVariations : Nat
deriving DecidableEq, Repr

/-- Embedding of `SessionManager.getAndIncrementVariation`: on a working store, increment
the per-(subscriber, url, idea) counter and return the post-increment value
minus one; on a store error (`redisOk = false`, the catch branch) swallow
the error and return index 0 with `totalVariations` 0 and no flags. -/
def getAndIncrementVariation (redisOk : Bool) (store : RedisNat)
    (subscriberId reelUrl userIdea : Str) : RedisNat × VariationResult :=
  if redisOk then
    let key := getVariationKey subscriberId reelUrl userIdea
    let r := redisIncr store key
    let newCount := r.2
    (r.1, ⟨newCount - 1, false, decide (newCount > SOFT_VARIATION_LIMIT), newCount⟩)
  else
    (store, ⟨0, false, false, 0⟩)

/-- The list of `variationIndex` values returned by `n` successive
`getAndIncrementVariation` calls for the same (subscriber, url, idea). -/
def variationRun (store : RedisNat) (subscriberId reelUrl userIdea : Str) : Nat → List Nat
  | 0 => []
  | n + 1 =>
    let r := getAndIncrementVariation true store subscriberId reelUrl userIdea
    r.2.variationIndex :: variationRun r.1 subscriberId reelUrl userIdea n

/-! Section: Job records and the v2 ingress handler core
(`src/db/models/Job.ts`, `src/api/generateScriptV2.ts` steps 5-7) -/

/-- Embedding of `JobStatus` from `src/db/models/Job.ts`. -/
inductive JobStatus
  | queued
  | processing
  | completed
  | failed
deriving DecidableEq, Repr, BEq

/-- A `Job` document (the fields the ingress handler reads and writes). -/
structure JobRec where
  jobId : Str
  subscriberId : Str
  requestHash : Str
  status : JobStatus
deriving DecidableEq, Repr

/-- A `Script` document (the fields the cache check reads). -/
structure ScriptRec where
  requestHash : Str
  scriptText : Str
deriving DecidableEq, Repr

/-- The `Job.findOne({requestHash, status: {$in: ['queued','processing']}})`
predicate of `generateScriptHandlerV2` step 6. -/
def isInFlightFor (h : Str) (j : JobRec) : Bool :=
  j.requestHash == h && (j.status == .queued || j.status == .processing)

/-- The handler's reply to the caller (cache hit or queued acknowledgement). -/
inductive V2Response
  | cachedResponse (script : Str)
  | queuedResponse (jobId : Str)
deriving DecidableEq, Repr

/-- Steps 6-7 of `generateScriptHandlerV2`: look up an in-flight job with
the same `requestHash`; if one exists reply with its `jobId` and create
nothing, otherwise persist a new queued job under the caller's request id. -/
def jobLookupAndEnqueue (jobs : List JobRec) (requestId subscriberId h : Str) :
    List JobRec × V2Response :=
  match jobs.find? (isInFlightFor h) with
  | some existingJob => (jobs, .queuedResponse existingJob.jobId)
  | none => (jobs ++ [⟨requestId, subscriberId, h, .queued⟩], .queuedResponse requestId)

/-- Steps 5-7 of `generateScriptHandlerV2`: when `variationIndex` is 0,
consult the tier-2 script cache and reply inline on a hit; otherwise (or on
a miss) run the in-flight dedup and enqueue. -/
def generateScriptCore (variationIndex : Nat) (cache : List ScriptRec)
    (jobs : List JobRec) (requestId subscriberId h : Str) : List JobRec × V2Response :=
  if variationIndex = 0 then
    match cache.find? (fun s => s.requestHash == h) with
    | some cachedScript => (jobs, .cachedResponse cachedScript.scriptText)
    | none => jobLookupAndEnqueue jobs requestId subscriberId h
  else jobLookupAndEnqueue jobs requestId subscriberId h

/-! Section: ManyChat delivery adapter (`src/services/manychat.ts`, `sendToManyChat`) -/

/-- The configuration fields `sendToManyChat` reads (absent env vars are
`none`; JS truthiness also treats the empty string as unset). -/
structure ManyChatConfigRec where
  apiKey : Option Str
  copyFieldId : Option Str
  scriptFieldId : Option Str
  enableDirect : Bool
deriving DecidableEq, Repr

/-- The `ManyChatPayload` the worker passes to `sendToManyChat`. -/
structure ManyChatPayloadRec where
  subscriber_id : Str
  field_name : Str
  field_value : Str
  scriptUrl : Option Str
deriving DecidableEq, Repr

/-- One outbound ManyChat API call, labelled by the call site. -/
inductive MCCall
  | setCopyField (fieldId value : Str)
  | setImageField (fieldId value : Str)
  | sendImage (url : Str)
  | sendCopyLink (url : Str)
deriving DecidableEq, Repr

/-- Does `parseInt(s, 10)` yield a number (not NaN)?  True when the trimmed
string begins with a digit, optionally after a sign. -/
def jsParseIntOk (s : Str) : Bool :=
  match jsTrim s with
  | [] => false
  | c :: rest =>
    if c == '-' || c == '+' then
      match rest with
      | [] => false
      | d :: _ => d.isDigit
    else c.isDigit

/-- JS truthiness of an optional string (unset or empty is falsy). -/
def optTruthy : Option Str → Bool
  | some s => !s.isEmpty
  | none => false

/-- Step 1 of `sendToManyChat`: the copy-URL custom-field write, issued
first when a script URL and a copy field id are both configured (JS
truthiness: unset or empty strings skip the write). -/
def mcCopyFieldCalls (cfg : ManyChatConfigRec) (payload : ManyChatPayloadRec) : List MCCall :=
  match payload.scriptUrl, cfg.copyFieldId with
  | some u, some f => if !u.isEmpty && !f.isEmpty then [MCCall.setCopyField f u] else []
  | _, _ => []

/-- Step 2 of `sendToManyChat`: the image-URL custom-field write (the
trigger field), issued after the copy-URL write; the field id falls back to
`payload.field_name` when no field id is configured. -/
def mcImageFieldCalls (cfg : ManyChatConfigRec) (payload : ManyChatPayloadRec) : List MCCall :=
  let imageFieldId :=
    match cfg.scriptFieldId with
    | some f => if !f.isEmpty then f else payload.field_name
    | none => payload.field_name
  if !imageFieldId.isEmpty then [MCCall.setImageField imageFieldId payload.field_value]
  else []

/-- Step 3 of `sendToManyChat`: the optional direct messages (image, then
copy link), sent only when direct messaging is enabled and the payload
targets the `script_image_url` field. -/
def mcDirectCalls (cfg : ManyChatConfigRec) (payload : ManyChatPayloadRec) : List MCCall :=
  if cfg.enableDirect && payload.field_name == "script_image_url".data then
    MCCall.sendImage payload.field_value ::
      (match payload.scriptUrl with
       | some u => if !u.isEmpty then [MCCall.sendCopyLink u] else []
       | none => [])
  else []

/-- Embedding of `sendToManyChat`, as the sequence of ManyChat API calls it issues, in
order.  Without an API key or with a non-numeric subscriber id it returns
early; otherwise it writes the copy-URL field, then the image-URL field
(the trigger), then the optional direct messages. -/
def sendToManyChat (cfg : ManyChatConfigRec) (payload : ManyChatPayloadRec) : List MCCall :=
  match cfg.apiKey with
  | none => []
  | some _ =>
    if !jsParseIntOk payload.subscriber_id then []
    else mcCopyFieldCalls cfg payload ++ mcImageFieldCalls cfg payload ++ mcDirectCalls cfg payload

/-- Is this call the copy-URL custom-field write? -/
def isCopyCall : MCCall → Bool
  | .setCopyField _ _ => true
  | _ => false

/-- Is this call the image-URL custom-field write (the trigger field)? -/
def isImageCall : MCCall → Bool
  | .setImageField _ _ => true
  | _ => false

/-! Section: Circuit breaker (`src/utils/circuitBreaker.ts`, class `CircuitBreaker`)

Timestamps (`Date.now()`) are naturals; the wall clock is monotone, so the
JS subtractions `now - lastStateChange` and `now - lastFailureTime` agree
with truncated subtraction. -/

/-- The breaker states. -/
inductive CBState
  | CLOSED
  | OPEN
  | HALF_OPEN
deriving DecidableEq, Repr

/-- Embedding of `CircuitBreakerConfig` (the `name` field is only used for logging). -/
structure CircuitBreakerConfig where
  failureThreshold : Nat
  resetTimeout : Nat
  successThreshold : Nat
  failureWindow : Nat
deriving DecidableEq, Repr

/-- The mutable fields of a `CircuitBreaker` instance, plus its config. -/
structure CircuitBreaker where
  config : CircuitBreakerConfig
  state : CBState
  failures : Nat
  successes : Nat
  lastFailureTime : Nat
  lastStateChange : Nat
  totalRequests : Nat
  totalFailures : Nat
deriving DecidableEq, Repr

/-- Embedding of `transitionTo(newState)`: set the state and record the change time. -/
def CircuitBreaker.transitionTo (now : Nat) (newState : CBState) (cb : CircuitBreaker) :
    CircuitBreaker :=
  { cb with state := newState, lastStateChange := now }

/-- Embedding of `checkStateTransition()`: OPEN moves to HALF_OPEN once the reset timeout
has elapsed (clearing `successes`); CLOSED clears stale failures outside the
failure window. -/
def CircuitBreaker.checkStateTransition (now : Nat) (cb : CircuitBreaker) : CircuitBreaker :=
  match cb.state with
  | .OPEN =>
    if cb.config.resetTimeout ≤ now - cb.lastStateChange then
      { cb.transitionTo now .HALF_OPEN with successes := 0 }
    else cb
  | .CLOSED =>
    if 0 < cb.failures ∧ cb.config.failureWindow < now - cb.lastFailureTime then
      { cb with failures := 0 }
    else cb
  | .HALF_OPEN => cb

/-- Embedding of `onSuccess()`. -/
def CircuitBreaker.onSuccess (now : Nat) (cb : CircuitBreaker) : CircuitBreaker :=
  match cb.state with
  | .HALF_OPEN =>
    let cb := { cb with successes := cb.successes + 1 }
    if cb.config.successThreshold ≤ cb.successes then
      { cb.transitionTo now .CLOSED with failures := 0, successes := 0 }
    else cb
  | .CLOSED => { cb with failures := 0 }
  | .OPEN => cb

/-- Embedding of `onFailure(error)`. -/
def CircuitBreaker.onFailure (now : Nat) (cb : CircuitBreaker) : CircuitBreaker :=
  let cb := { cb with totalFailures := cb.totalFailures + 1, lastFailureTime := now }
  match cb.state with
  | .HALF_OPEN => { cb.transitionTo now .OPEN with successes := 0 }
  | .CLOSED =>
    let cb := { cb with failures := cb.failures + 1 }
    if cb.config.failureThreshold ≤ cb.failures then cb.transitionTo now .OPEN
    else cb
  | .OPEN => cb

/-- What `execute` did with one call. -/
inductive ExecOutcome
  | denied
  | succeeded
  | failed
deriving DecidableEq, Repr

/-- Embedding of `execute(fn)` at time `now`, where `succeeds` tells whether the wrapped
call would succeed: count the request, run the state-transition check, fail
fast when OPEN, otherwise record the call's outcome. -/
def CircuitBreaker.execute (now : Nat) (succeeds : Bool) (cb : CircuitBreaker) :
    CircuitBreaker × ExecOutcome :=
  let cb := { cb with totalRequests := cb.totalRequests + 1 }
  let cb := cb.checkStateTransition now
  if cb.state = .OPEN then (cb, .denied)
  else if succeeds then (cb.onSuccess now, .succeeded)
  else (cb.onFailure now, .failed)

/-- Run one recorded failure per listed timestamp. -/
def runFailures (cb : CircuitBreaker) (ts : List Nat) : CircuitBreaker :=
  ts.foldl (fun cb t => (cb.execute t false).1) cb

/-- Run one recorded success per listed timestamp. -/
def runSuccesses (cb : CircuitBreaker) (ts : List Nat) : CircuitBreaker :=
  ts.foldl (fun cb t => (cb.execute t true).1) cb

/-! Section: Per-subscriber quota gate (`src/middleware/userRateLimiter.ts`) -/

/-- The observable result of one pass through the user rate limiter:
the HTTP status it replied with (`none` when it called `next()`), the
`retryAfter` body field, the headers it set, and the updated counter. -/
structure RLResult where
  status : Option Nat
  retryAfter : Option Int
  headers : List (Str × Str)
  nextCalled : Bool
  storedAfter : Option Nat
deriving DecidableEq, Repr

/-- The middleware produced by `createUserRateLimiter`, for one request:
`stored` is the counter read from Redis (absent key reads as 0 after
`parseInt` fallback), `ttl` the key's remaining TTL, `storeOk0` whether the
ephemeral store is reachable.  Over the ceiling it replies 429 carrying
`retryAfter := ttl`; under it, it increments and sets the rate-limit
headers; on a store error it fails closed with 503. -/
def createUserRateLimiter (maxRequests windowSeconds : Nat) (subscriberId : Option Str)
    (storeOk0 : Bool) (stored : Option Nat) (ttl : Int) : RLResult :=
  match subscriberId with
  | none => ⟨none, none, [], true, stored⟩
  | some sub =>
    if !storeOk0 then ⟨some 503, none, [], false, stored⟩
    else
      let count := stored.getD 0
      if maxRequests ≤ count then
        ⟨some 429, some ttl, [], false, stored⟩
      else
        ⟨none, none,
          [("X-RateLimit-Limit".data, natToChars maxRequests),
           ("X-RateLimit-Remaining".data, natToChars (maxRequests - count - 1)),
           ("X-RateLimit-User".data, sub)],
          true,
          some (if count = 0 then 1 else count + 1)⟩

/-! Section: Beta access control (`src/middleware/betaAccess.ts`) -/

/-- Embedding of `accessStatus` values of a `User` document. -/
inductive AccessStatus
  | active
  | waitlist
  | blocked
deriving DecidableEq, Repr, BEq

/-- A `User` document (the fields the gate reads and writes).  `createdAt`
is the Mongo creation timestamp used to order the waitlist. -/
structure UserRec where
  subscriberId : Str
  accessStatus : AccessStatus
  registrationNumber : Option Nat
  totalRequests : Nat
  createdAt : Nat
deriving DecidableEq, Repr

/-- Embedding of `User.countDocuments({accessStatus: 'active'})`. -/
def countActive (users : List UserRec) : Nat :=
  users.countP (fun u => u.accessStatus == .active)

/-- Embedding of `user.save()`: replace the document with the same subscriber id. -/
def saveUser (users : List UserRec) (u : UserRec) : List UserRec :=
  users.map (fun x => if x.subscriberId = u.subscriberId then u else x)

/-- The gate's observable outcome for one request. -/
inductive BetaOutcome
  | missingId
  | blockedUser
  | waitlistReply (position : Nat)
  | allowed (user : UserRec)
deriving DecidableEq, Repr

/-- Embedding of `betaAccessControl` for one request at time `now` (the creation time
Mongo would stamp on a new document): admit known active users, block
blocked ones, opportunistically promote the requesting waitlisted user when
a slot is free, admit new users while under capacity, and otherwise
waitlist them with their position. -/
def betaAccessControl (maxUsers now : Nat) (users : List UserRec)
    (subscriberId : Option Str) : List UserRec × BetaOutcome :=
  match subscriberId with
  | none => (users, .missingId)
  | some sub =>
    match users.find? (fun u => u.subscriberId = sub) with
    | some user =>
      if user.accessStatus = .blocked then (users, .blockedUser)
      else
        let afterWaitlist :
            Option (List UserRec × BetaOutcome) × UserRec :=
          if user.accessStatus = .waitlist then
            let activeCount := countActive users
            if activeCount < maxUsers then
              (none, { user with accessStatus := .active,
                                 registrationNumber := some (activeCount + 1) })
            else
              let position := users.countP (fun u =>
                u.accessStatus == .waitlist && decide (u.createdAt < user.createdAt)) + 1
              (some (users, .waitlistReply position), user)
          else (none, user)
        match afterWaitlist with
        | (some reply, _) => reply
        | (none, user1) =>
          let user2 := { user1 with totalRequests := user1.totalRequests + 1 }
          (saveUser users user2, .allowed user2)
    | none =>
      let activeCount := countActive users
      if activeCount < maxUsers then
        let newUser : UserRec :=
          ⟨sub, .active, some (activeCount + 1), 1, now⟩
        (users ++ [newUser], .allowed newUser)
      else
        let waitlistCount := users.countP (fun u => u.accessStatus == .waitlist)
        let newUser : UserRec := ⟨sub, .waitlist, none, 0, now⟩
        (users ++ [newUser], .waitlistReply (waitlistCount + 1))

/-- The document `findOneAndUpdate({accessStatus:'waitlist'}, …, {sort:
{createdAt: 1}})` selects: a waitlisted user with minimal `createdAt`
(the first such document in collection order). -/
def earliestWaitlist : List UserRec → Option UserRec
  | [] => none
  | u :: rest =>
    let r := earliestWaitlist rest
    if u.accessStatus = .waitlist then
      match r with
      | none => some u
      | some b => if b.createdAt < u.createdAt then some b else some u
    else r

/-- Embedding of `promoteNextFromWaitlist`: when a slot is free, atomically flip the
oldest waitlisted user to active with the next ordinal. -/
def promoteNextFromWaitlist (maxUsers : Nat) (users : List UserRec) :
    List UserRec × Option UserRec :=
  let activeCount := countActive users
  if maxUsers ≤ activeCount then (users, none)
  else
    match earliestWaitlist users with
    | none => (users, none)
    | some u =>
      let u2 := { u with accessStatus := .active,
                         registrationNumber := some (activeCount + 1) }
      (saveUser users u2, some u2)

/-! Section: Request validation (`src/validators/requestValidator.ts`) -/

/-- The result of validating one field. -/
inductive FieldRes (α : Type)
  | ok (value : α)
  | err (message : Str)
deriving DecidableEq, Repr

/-- Embedding of `manyChatPreprocess`: an unreplaced ManyChat placeholder (a string of
shape starting with two opening braces and ending with two closing braces)
becomes undefined, as does the empty string. -/
def manyChatPreprocessVal : Option Str → Option Str
  | none => none
  | some s =>
    if strStarts s "\x7b\x7b".data && strEnds s "\x7d\x7d".data then none
    else if s.isEmpty then none
    else some s

/-- The character class rejected by `userIdeaSchema`'s refine:
`<`, `>`, the two brace characters, and backslash. -/
def isIdeaBadChar (c : Char) : Bool :=
  c == '<' || c == '>' || c == '\x7b' || c == '\x7d' || c == '\\'

/-- Embedding of `userIdeaSchema`: required, length 4-500, no structural characters,
then trimmed.  It is NOT wrapped in `manyChatPreprocess`. -/
def userIdeaParse : Option Str → FieldRes Str
  | none => .err "Required".data
  | some s =>
    if s.length < 4 then .err "User idea must be longer than 3 characters".data
    else if 500 < s.length then .err "User idea is too long (max 500 characters)".data
    else if s.any isIdeaBadChar then .err "User idea contains invalid characters".data
    else .ok (jsTrim s)

/-- What the specification claims for every field: the ManyChat placeholder
coercion applied before the field's own validation (refinement reference
for the user-idea field). -/
def userIdeaParseClaimed (v : Option Str) : FieldRes Str :=
  userIdeaParse (manyChatPreprocessVal v)

/-- The `tone_hint` enum values. -/
def toneEnum : List Str :=
  ["professional".data, "funny".data, "provocative".data, "educational".data, "casual".data]

/-- Embedding of `toneHintSchema`: `manyChatPreprocess(z.enum([...]).optional())`. -/
def toneHintParse (v : Option Str) : FieldRes (Option Str) :=
  match manyChatPreprocessVal v with
  | none => .ok none
  | some s => if s ∈ toneEnum then .ok (some s) else .err "Invalid enum value".data

/-- Embedding of `languageHintSchema`: `manyChatPreprocess(z.string().max(50).refine(letters).optional())`. -/
def languageHintParse (v : Option Str) : FieldRes (Option Str) :=
  match manyChatPreprocessVal v with
  | none => .ok none
  | some s =>
    if 50 < s.length then .err "String must contain at most 50 characters".data
    else if !(s.isEmpty || s.all (fun c => c.isAlpha || isJsSpace c)) then
      .err "Language must contain only letters".data
    else .ok (some s)

/-- Embedding of `modeSchema`: `manyChatPreprocess(z.enum(['full','hook_only']).optional().default('full'))`. -/
def modeParse (v : Option Str) : FieldRes Str :=
  match manyChatPreprocessVal v with
  | none => .ok "full".data
  | some s =>
    if s = "full".data || s = "hook_only".data then .ok s
    else .err "Invalid enum value".data

/-! ## Theorems -/

/-- A list prefixed with `p` starts with `p`. -/
theorem strStarts_append_self (p t : Str) : strStarts (p ++ t) p = true := by
  induction p with
  | nil => cases t <;> rfl
  | cons c ps ih => simp [strStarts, ih]

/-- C1: the tier-2 cache key is the SHA-256 of the versioned tuple
(subscriber id, canonical video URL, lowercase-trimmed intent text,
variation index, mode), and the hashed string carries the fixed version
marker `v2:` as a prefix, so future tuple extensions cannot collide with
the v2 scheme. -/
theorem requestHashV2_tier2_key (sha256 : Str → Str) (s u i : Str) (n : Nat) (m : Str) :
    generateRequestHashV2 sha256 s u i n m =
      sha256 ("v2:".data ++ s ++ ":".data ++ normalizeInstagramUrl u ++ ":".data
        ++ jsTrim (toLowerStr i) ++ ":".data ++ natToChars n ++ ":".data
        ++ (if (jsTrim m).isEmpty then "full".data else jsTrim m))
    ∧ strStarts ("v2:".data ++ s ++ ":".data ++ normalizeInstagramUrl u ++ ":".data
        ++ jsTrim (toLowerStr i) ++ ":".data ++ natToChars n ++ ":".data
        ++ (if (jsTrim m).isEmpty then "full".data else jsTrim m)) "v2:".data = true := by
  constructor
  · rfl
  · rw [show ("v2:".data ++ s ++ ":".data ++ normalizeInstagramUrl u ++ ":".data
        ++ jsTrim (toLowerStr i) ++ ":".data ++ natToChars n ++ ":".data
        ++ (if (jsTrim m).isEmpty then "full".data else jsTrim m)) =
        "v2:".data ++ (s ++ ":".data ++ normalizeInstagramUrl u ++ ":".data
        ++ jsTrim (toLowerStr i) ++ ":".data ++ natToChars n ++ ":".data
        ++ (if (jsTrim m).isEmpty then "full".data else jsTrim m)) by simp]
    exact strStarts_append_self _ _

/-- C4 counterexample: the URL canonicalizer is not idempotent.  JS
`replace('/reels/', '/reel/')` substitutes only the first occurrence, so a
path `/reels/reels/x` canonicalizes to `/reel/reels/x`, which still
contains `/reels/` and changes again on the second pass. -/
theorem normalizeInstagramUrl_not_idempotent :
    normalizeInstagramUrl
        (normalizeInstagramUrl "https://www.instagram.com/reels/reels/x".data)
      ≠ normalizeInstagramUrl "https://www.instagram.com/reels/reels/x".data := by
  decide

/-- Lemma: `takeWhile` walks through a block that satisfies the predicate. -/
theorem takeWhile_append_of_all {p : Char → Bool} :
    ∀ (l₁ l₂ : Str), (∀ c ∈ l₁, p c = true) →
      (l₁ ++ l₂).takeWhile p = l₁ ++ l₂.takeWhile p
  | [], l₂, _ => by simp
  | c :: t, l₂, h => by
    have hc := h c (by simp)
    simp [List.takeWhile_cons, hc,
      takeWhile_append_of_all t l₂ (fun x hx => h x (by simp [hx]))]

/-- Lemma: `dropWhile` walks through a block that satisfies the predicate. -/
theorem dropWhile_append_of_all {p : Char → Bool} :
    ∀ (l₁ l₂ : Str), (∀ c ∈ l₁, p c = true) →
      (l₁ ++ l₂).dropWhile p = l₂.dropWhile p
  | [], l₂, _ => by simp
  | c :: t, l₂, h => by
    have hc := h c (by simp)
    simp [List.dropWhile_cons, hc,
      dropWhile_append_of_all t l₂ (fun x hx => h x (by simp [hx]))]

/-- The head surviving a `dropWhile` falsifies the predicate. -/
theorem dropWhile_head_false (p : Char → Bool) :
    ∀ {l : Str} {c : Char} {t : Str}, l.dropWhile p = c :: t → p c = false
  | [], c, t, h => by simp at h
  | a :: l, c, t, h => by
    by_cases ha : p a = true
    · rw [List.dropWhile_cons, if_pos ha] at h
      exact dropWhile_head_false p h
    · rw [List.dropWhile_cons, if_neg ha] at h
      cases h
      simpa using ha

/-- Scheme characters are never a colon. -/
theorem schemeOk_no_colon {s : Str} (h : schemeOk s = true) :
    ∀ c ∈ s, (c != ':') = true := by
  intro c hc
  have hall : s.all isSchemeChar = true := by
    cases s with
    | nil => simp at hc
    | cons a t => exact (Bool.and_elim_right (by simpa [schemeOk] using h))
  have hc2 : isSchemeChar c = true := by
    rw [List.all_eq_true] at hall
    exact hall c hc
  rcases eq_or_ne c ':' with rfl | hne
  · exact absurd hc2 (by decide)
  · simpa [bne_iff_ne] using hne

/-- Structural facts `parseUrl` guarantees about the record it returns. -/
theorem parseUrl_components {u : Str} {url : JsUrl} (h : parseUrl u = some url) :
    schemeOk url.scheme = true ∧
    url.host ≠ [] ∧
    (∀ c ∈ url.host, isHostEnd c = false) ∧
    (url.pathname = [] ∨ ∃ t, url.pathname = '/' :: t) ∧
    (∀ c ∈ url.pathname, isPathEnd c = false) ∧
    (url.fragment = [] ∨ ∃ t, url.fragment = '#' :: t) := by
  simp only [parseUrl] at h
  by_cases h1 : schemeOk (u.takeWhile fun c => c != ':')
      && strStarts (u.dropWhile fun c => c != ':') "://".data
  · rw [if_pos h1] at h
    set afterAuth := (u.dropWhile fun c => c != ':').drop 3 with hAA
    by_cases h2 : (afterAuth.takeWhile fun c => !isHostEnd c).isEmpty
    · rw [if_pos h2] at h
      simp at h
    · rw [if_neg h2] at h
      injection h with h
      subst h
      rw [Bool.and_eq_true] at h1
      refine ⟨h1.1, ?_, ?_, ?_, ?_, ?_⟩
      · intro hnil
        have hnil2 : (afterAuth.takeWhile fun c => !isHostEnd c) = [] := hnil
        rw [hnil2] at h2
        simp at h2
      · intro c hc
        have hc2 : c ∈ afterAuth.takeWhile fun c => !isHostEnd c := hc
        have := List.mem_takeWhile_imp hc2
        simpa using this
      · show (afterAuth.dropWhile fun c => !isHostEnd c).takeWhile (fun c => !isPathEnd c) = []
          ∨ ∃ t, (afterAuth.dropWhile fun c => !isHostEnd c).takeWhile (fun c => !isPathEnd c)
              = '/' :: t
        cases hr : afterAuth.dropWhile (fun c => !isHostEnd c) with
        | nil => left; simp
        | cons c t =>
          have hc : isHostEnd c = true := by
            have := dropWhile_head_false _ hr
            simpa using this
          have hc3 : c = '/' ∨ c = '?' ∨ c = '#' := by
            simp only [isHostEnd, Bool.or_eq_true, beq_iff_eq] at hc
            tauto
          rcases hc3 with rfl | rfl | rfl
          · right
            exact ⟨t.takeWhile fun c => !isPathEnd c, by simp [List.takeWhile_cons, isPathEnd]⟩
          · left; simp [List.takeWhile_cons, isPathEnd]
          · left; simp [List.takeWhile_cons, isPathEnd]
      · intro c hc
        have hc2 : c ∈ ((afterAuth.dropWhile fun c => !isHostEnd c).takeWhile
            fun c => !isPathEnd c) := hc
        have := List.mem_takeWhile_imp hc2
        simpa using this
      · show ((afterAuth.dropWhile fun c => !isHostEnd c).dropWhile
              fun c => !isPathEnd c).dropWhile (fun c => c != '#') = []
          ∨ ∃ t, ((afterAuth.dropWhile fun c => !isHostEnd c).dropWhile
              fun c => !isPathEnd c).dropWhile (fun c => c != '#') = '#' :: t
        cases hf : ((afterAuth.dropWhile fun c => !isHostEnd c).dropWhile
            fun c => !isPathEnd c).dropWhile (fun c => c != '#') with
        | nil => left; rfl
        | cons c t =>
          have hc := dropWhile_head_false _ hf
          have : c = '#' := by simpa [bne_iff_ne] using hc
          subst this
          right
          exact ⟨t, rfl⟩
  · rw [if_neg h1] at h
    simp at h

/-- Serializing a well-formed URL record and reparsing it is the identity
(the fragment of WHATWG round-tripping the canonicalizer relies on). -/
theorem parse_toStr (S H P F : Str)
    (hscheme : schemeOk S = true)
    (hhost0 : H ≠ [])
    (hhost : ∀ c ∈ H, isHostEnd c = false)
    (hpath0 : P = [] ∨ ∃ t, P = '/' :: t)
    (hpath : ∀ c ∈ P, isPathEnd c = false)
    (hfrag : F = [] ∨ ∃ t, F = '#' :: t) :
    parseUrl (JsUrl.toStr ⟨S, H, P, [], F⟩) = some ⟨S, H, P, [], F⟩ := by
  have hlit : "://".data = [':', '/', '/'] := rfl
  have htoStr : JsUrl.toStr ⟨S, H, P, [], F⟩ = S ++ ':' :: '/' :: '/' :: (H ++ (P ++ F)) := by
    simp [JsUrl.toStr, hlit]
  have hcolon : ∀ c ∈ S, ((fun c => c != ':') c) = true := fun c hc => schemeOk_no_colon hscheme c hc
  have h1 : (S ++ ':' :: '/' :: '/' :: (H ++ (P ++ F))).takeWhile (fun c => c != ':') = S := by
    rw [takeWhile_append_of_all _ _ hcolon]
    simp [List.takeWhile_cons]
  have h2 : (S ++ ':' :: '/' :: '/' :: (H ++ (P ++ F))).dropWhile (fun c => c != ':')
      = ':' :: '/' :: '/' :: (H ++ (P ++ F)) := by
    rw [dropWhile_append_of_all _ _ hcolon]
    simp [List.dropWhile_cons]
  have h3 : strStarts (':' :: '/' :: '/' :: (H ++ (P ++ F))) "://".data = true := by
    simp [hlit, strStarts]
  have h4 : (':' :: '/' :: '/' :: (H ++ (P ++ F))).drop 3 = H ++ (P ++ F) := rfl
  have hhost2 : ∀ c ∈ H, ((fun c => !isHostEnd c) c) = true := by
    intro c hc
    simp [hhost c hc]
  have hPF : (P ++ F).takeWhile (fun c => !isHostEnd c) = [] := by
    rcases hpath0 with rfl | ⟨t, rfl⟩
    · rcases hfrag with rfl | ⟨t', rfl⟩
      · rfl
      · simp [List.takeWhile_cons, isHostEnd]
    · simp [List.takeWhile_cons, isHostEnd]
  have h5 : (H ++ (P ++ F)).takeWhile (fun c => !isHostEnd c) = H := by
    rw [takeWhile_append_of_all _ _ hhost2, hPF, List.append_nil]
  have hPF2 : (P ++ F).dropWhile (fun c => !isHostEnd c) = P ++ F := by
    rcases hpath0 with rfl | ⟨t, rfl⟩
    · rcases hfrag with rfl | ⟨t', rfl⟩
      · rfl
      · simp [List.dropWhile_cons, isHostEnd]
    · simp [List.dropWhile_cons, isHostEnd]
  have h6 : (H ++ (P ++ F)).dropWhile (fun c => !isHostEnd c) = P ++ F := by
    rw [dropWhile_append_of_all _ _ hhost2, hPF2]
  have hpath2 : ∀ c ∈ P, ((fun c => !isPathEnd c) c) = true := by
    intro c hc
    simp [hpath c hc]
  have hFtake : F.takeWhile (fun c => !isPathEnd c) = F.takeWhile (fun c => !isPathEnd c) := rfl
  have h7 : (P ++ F).takeWhile (fun c => !isPathEnd c) = P := by
    rw [takeWhile_append_of_all _ _ hpath2]
    rcases hfrag with rfl | ⟨t', rfl⟩
    · simp
    · simp [List.takeWhile_cons, isPathEnd]
  have h8 : (P ++ F).dropWhile (fun c => !isPathEnd c) = F := by
    rw [dropWhile_append_of_all _ _ hpath2]
    rcases hfrag with rfl | ⟨t', rfl⟩
    · rfl
    · simp [List.dropWhile_cons, isPathEnd]
  have h9 : F.takeWhile (fun c => c != '#') = [] := by
    rcases hfrag with rfl | ⟨t', rfl⟩
    · rfl
    · simp [List.takeWhile_cons]
  have h10 : F.dropWhile (fun c => c != '#') = F := by
    rcases hfrag with rfl | ⟨t', rfl⟩
    · rfl
    · simp [List.dropWhile_cons]
  have hHne : H.isEmpty = false := by
    cases H with
    | nil => exact absurd rfl hhost0
    | cons _ _ => rfl
  simp only [parseUrl, htoStr, h1, h2, h3, h4, h5, h6, h7, h8, h9, h10, hscheme,
    Bool.and_self, if_true, hHne, Bool.true_and, if_false, Bool.false_eq_true]

/-- Characters produced by `replaceFirst` come from the input or the
replacement. -/
theorem mem_replaceFirst {pat rep : Str} :
    ∀ {l : Str} {c : Char}, c ∈ replaceFirst l pat rep → c ∈ l ∨ c ∈ rep
  | [], c, h => by simp [replaceFirst] at h
  | a :: s, c, h => by
    rw [replaceFirst] at h
    by_cases hs : strStarts (a :: s) pat = true
    · rw [if_pos hs] at h
      rcases List.mem_append.1 h with h | h
      · exact Or.inr h
      · exact Or.inl (List.drop_subset _ _ h)
    · rw [if_neg hs] at h
      rcases List.mem_cons.1 h with rfl | h
      · exact Or.inl (List.mem_cons_self _ _)
      · rcases mem_replaceFirst h with h | h
        · exact Or.inl (List.mem_cons_of_mem _ h)
        · exact Or.inr h

/-- Lemma: `replaceFirst` is the identity when the pattern does not occur. -/
theorem replaceFirst_of_not_contains {pat rep : Str} :
    ∀ {l : Str}, containsSub l pat = false → replaceFirst l pat rep = l
  | [], _ => rfl
  | c :: s, h => by
    rw [containsSub, Bool.or_eq_false_iff] at h
    rw [replaceFirst, if_neg (by simp [h.1]), replaceFirst_of_not_contains h.2]

/-- One trailing-slash strip keeps elements of the path. -/
theorem dropTrailingSlash_subset (p : Str) : dropTrailingSlash p ⊆ p := by
  unfold dropTrailingSlash
  split
  · exact List.dropLast_subset _
  · exact List.Subset.refl _

/-- The canonicalized path keeps clear of `?` and `#`. -/
theorem canonPath_no_pathend {P : Str} (h : ∀ c ∈ P, isPathEnd c = false) :
    ∀ c ∈ canonPath P, isPathEnd c = false := by
  intro c hc
  rcases mem_replaceFirst hc with h1 | h1
  · exact h c (dropTrailingSlash_subset P h1)
  · have hrep : ∀ c ∈ "/reel/".data, isPathEnd c = false := by decide
    exact hrep c h1

/-- Stripping the trailing slash preserves the leading-slash shape. -/
theorem dropTrailingSlash_head {P : Str} (h : P = [] ∨ ∃ t, P = '/' :: t) :
    dropTrailingSlash P = [] ∨ ∃ t, dropTrailingSlash P = '/' :: t := by
  rcases h with rfl | ⟨t, rfl⟩
  · left; rfl
  · unfold dropTrailingSlash
    split
    · cases t with
      | nil => left; rfl
      | cons b t' => right; exact ⟨(b :: t').dropLast, by simp [List.dropLast]⟩
    · right; exact ⟨t, rfl⟩

/-- The canonicalized path preserves the leading-slash shape. -/
theorem canonPath_head {P : Str} (h : P = [] ∨ ∃ t, P = '/' :: t) :
    canonPath P = [] ∨ ∃ t, canonPath P = '/' :: t := by
  unfold canonPath
  rcases dropTrailingSlash_head h with h1 | ⟨t, h1⟩
  · left; rw [h1]; rfl
  · rw [h1, replaceFirst]
    split
    · right; exact ⟨"reel/".data ++ ('/' :: t).drop "/reels/".data.length, rfl⟩
    · right; exact ⟨replaceFirst t "/reels/".data "/reel/".data, rfl⟩

/-- Lemma: `dropTrailingSlash` is the identity when there is no trailing slash. -/
theorem dropTrailingSlash_of_not_ends {p : Str} (h : strEnds p "/".data = false) :
    dropTrailingSlash p = p := by
  simp [dropTrailingSlash, h]

/-- C4 (amended): the canonicalizer is idempotent on unparsable inputs and
on every URL whose canonicalized path neither still contains `/reels/` nor
ends with a slash.  (As stated for all inputs the claim fails: the source
replaces only the first `/reels/` occurrence and strips only one trailing
slash, so e.g. a `/reels/reels/x` path keeps changing; see the
counterexample.) -/
theorem normalizeInstagramUrl_idempotent_amended (u : Str) :
    (parseUrl u = none →
      normalizeInstagramUrl (normalizeInstagramUrl u) = normalizeInstagramUrl u) ∧
    ∀ url, parseUrl u = some url →
      containsSub (canonPath url.pathname) "/reels/".data = false →
      strEnds (canonPath url.pathname) "/".data = false →
      normalizeInstagramUrl (normalizeInstagramUrl u) = normalizeInstagramUrl u := by
  constructor
  · intro h
    have h0 : normalizeInstagramUrl u = u := by
      simp [normalizeInstagramUrl, h]
    rw [h0]
    exact h0
  · intro url hp hc hs
    obtain ⟨S, H, P, Q, F⟩ := url
    obtain ⟨h1, h2, h3, h4, h5, h6⟩ := parseUrl_components hp
    have hn1 : normalizeInstagramUrl u = JsUrl.toStr ⟨S, H, canonPath P, [], F⟩ := by
      simp [normalizeInstagramUrl, hp]
    have hparse2 : parseUrl (JsUrl.toStr ⟨S, H, canonPath P, [], F⟩)
        = some ⟨S, H, canonPath P, [], F⟩ :=
      parse_toStr S H (canonPath P) F h1 h2 h3 (canonPath_head h4) (canonPath_no_pathend h5) h6
    have hfix : canonPath (canonPath P) = canonPath P := by
      show replaceFirst (dropTrailingSlash (canonPath P)) "/reels/".data "/reel/".data
        = canonPath P
      rw [dropTrailingSlash_of_not_ends hs, replaceFirst_of_not_contains hc]
    rw [hn1]
    simp [normalizeInstagramUrl, hparse2, hfix]

/-- C4 witness: idempotence on a concrete well-behaved Instagram URL
(query stripped, trailing slash removed, plural segment rewritten once). -/
theorem normalizeInstagramUrl_idempotent_witness :
    parseUrl "https://www.instagram.com/reels/AbC/?utm=1".data
        = some ⟨"https".data, "www.instagram.com".data, "/reels/AbC/".data,
                "?utm=1".data, []⟩ ∧
    normalizeInstagramUrl
        (normalizeInstagramUrl "https://www.instagram.com/reels/AbC/?utm=1".data)
      = normalizeInstagramUrl "https://www.instagram.com/reels/AbC/?utm=1".data := by
  refine ⟨by decide, ?_⟩
  exact (normalizeInstagramUrl_idempotent_amended _).2
    ⟨"https".data, "www.instagram.com".data, "/reels/AbC/".data, "?utm=1".data, []⟩
    (by decide) (by decide) (by decide)

/-- One successful counter call returns the pre-increment value and bumps
the stored counter by exactly one; the indices of `n` successive calls form
`range' c n` when the counter starts at `c`. -/
theorem variationRun_eq_range' (s u i : Str) :
    ∀ (n : Nat) (store : RedisNat),
      variationRun store s u i n = List.range' (store (getVariationKey s u i)) n
  | 0, store => rfl
  | n + 1, store => by
    rw [variationRun, List.range'_succ]
    simp only [getAndIncrementVariation, if_pos, redisIncr]
    rw [Nat.add_sub_cancel]
    congr 1
    rw [variationRun_eq_range' s u i n]
    congr 1
    simp

/-- C3: the sequence of variation indices returned by successive
`getAndIncrementVariation` calls for a fresh (subscriber, url, idea) key is
`0, 1, 2, …` (a strictly increasing prefix of the naturals), and every call
atomically increments the stored counter and returns the post-increment
value minus one. -/
theorem variation_indices_spec (store : RedisNat) (s u i : Str) (n : Nat)
    (hfresh : store (getVariationKey s u i) = 0) :
    variationRun store s u i n = List.range n ∧
    ∀ st : RedisNat,
      (getAndIncrementVariation true st s u i).2.variationIndex
          = st (getVariationKey s u i) ∧
      (getAndIncrementVariation true st s u i).1 (getVariationKey s u i)
          = st (getVariationKey s u i) + 1 ∧
      (getAndIncrementVariation true st s u i).2.totalVariations
          = st (getVariationKey s u i) + 1 := by
  constructor
  · rw [variationRun_eq_range' s u i n store, hfresh, List.range_eq_range']
  · intro st
    simp only [getAndIncrementVariation, if_pos, redisIncr]
    refine ⟨?_, ?_, ?_⟩
    · omega
    · simp
    · trivial

/-- C3 witness: three calls on a fresh store return indices 0, 1, 2. -/
theorem variation_indices_witness :
    ((fun _ => (0 : Nat)) (getVariationKey "7".data "u".data "i".data) = 0) ∧
    variationRun (fun _ => 0) "7".data "u".data "i".data 3 = List.range 3 := by
  refine ⟨rfl, ?_⟩
  exact (variation_indices_spec (fun _ => 0) "7".data "u".data "i".data 3 rfl).1

/-- C2: the ingress handler's enqueue step preserves the invariant that at
most one job per `requestHash` is in flight (queued or processing): it
first looks up an in-flight job with the same hash, and when one exists it
replies with that job's id and creates nothing. -/
theorem job_dedup_invariant :
    (∀ (jobs : List JobRec) (rid sub h : Str),
      (∀ h2, jobs.countP (isInFlightFor h2) ≤ 1) →
      ∀ h2, (jobLookupAndEnqueue jobs rid sub h).1.countP (isInFlightFor h2) ≤ 1) ∧
    (∀ (jobs : List JobRec) (rid sub h : Str) (j : JobRec),
      jobs.find? (isInFlightFor h) = some j →
      jobLookupAndEnqueue jobs rid sub h = (jobs, .queuedResponse j.jobId)) := by
  constructor
  · intro jobs rid sub h hinv h2
    unfold jobLookupAndEnqueue
    cases hfind : jobs.find? (isInFlightFor h) with
    | some j => exact hinv h2
    | none =>
      simp only [List.countP_append]
      by_cases he : h2 = h
      · subst he
        have hz : jobs.countP (isInFlightFor h2) = 0 := by
          rw [List.countP_eq_zero]
          intro j hj
          exact List.find?_eq_none.1 hfind j hj
        rw [hz]
        cases hx : isInFlightFor h2 (⟨rid, sub, h2, .queued⟩ : JobRec) <;>
          simp [List.countP_cons, hx]
      · have hone : isInFlightFor h2 ⟨rid, sub, h, .queued⟩ = false := by
          simp only [isInFlightFor]
          have : (h == h2) = false := by
            rw [beq_eq_false_iff_ne]
            exact fun hh => he hh.symm
          simp [this]
        simp [List.countP_cons, hone]
        exact hinv h2
  · intro jobs rid sub h j hfind
    unfold jobLookupAndEnqueue
    rw [hfind]

/-- C2 witness: on an empty store a fresh job keeps the invariant, and a
duplicate request for an in-flight hash returns the existing job id
without creating a second job. -/
theorem job_dedup_witness :
    (jobLookupAndEnqueue [] "r".data "s".data "a".data).1.countP
        (isInFlightFor "a".data) ≤ 1 ∧
    jobLookupAndEnqueue [⟨"j1".data, "s".data, "a".data, .queued⟩]
        "r2".data "s".data "a".data
      = ([⟨"j1".data, "s".data, "a".data, .queued⟩], .queuedResponse "j1".data) := by
  constructor
  · exact job_dedup_invariant.1 [] "r".data "s".data "a".data
      (fun h2 => by simp) "a".data
  · exact job_dedup_invariant.2 [⟨"j1".data, "s".data, "a".data, .queued⟩]
      "r2".data "s".data "a".data ⟨"j1".data, "s".data, "a".data, .queued⟩ (by decide)

/-- The copy-field segment contains no image-field writes. -/
theorem mcCopyFieldCalls_no_image (cfg : ManyChatConfigRec) (payload : ManyChatPayloadRec) :
    ∀ c ∈ mcCopyFieldCalls cfg payload, isImageCall c = false := by
  intro c hc
  unfold mcCopyFieldCalls at hc
  split at hc
  · split at hc
    · simp at hc
      subst hc
      rfl
    · simp at hc
  · simp at hc

/-- The image-field and direct-message segments contain no copy-field
writes. -/
theorem mcLaterCalls_no_copy (cfg : ManyChatConfigRec) (payload : ManyChatPayloadRec) :
    ∀ c ∈ mcImageFieldCalls cfg payload ++ mcDirectCalls cfg payload,
      isCopyCall c = false := by
  intro c hc
  rcases List.mem_append.1 hc with hc | hc
  · unfold mcImageFieldCalls at hc
    split at hc
    · simp at hc
      obtain ⟨-, rfl⟩ := hc
      rfl
    · simp at hc
      obtain ⟨-, rfl⟩ := hc
      rfl
  · unfold mcDirectCalls at hc
    split at hc
    · rcases List.mem_cons.1 hc with rfl | hc
      · rfl
      · split at hc
        · split at hc
          · simp at hc
            subst hc
            rfl
          · simp at hc
        · simp at hc
    · simp at hc

/-- A trace that is an image-free block followed by a copy-free block never
places an image call before a copy call. -/
theorem ordered_of_split {t a b : List MCCall} (ht : t = a ++ b)
    (ha : ∀ c ∈ a, isImageCall c = false) (hb : ∀ c ∈ b, isCopyCall c = false) :
    ∀ (i j : Nat) (hi : i < t.length) (hj : j < t.length),
      isImageCall (t.get ⟨i, hi⟩) = true → isCopyCall (t.get ⟨j, hj⟩) = true → j < i := by
  subst ht
  intro i j hi hj himg hcopy
  rw [List.get_eq_getElem] at himg hcopy
  have hi2 : a.length ≤ i := by
    by_contra hlt
    push_neg at hlt
    have hmem : (a ++ b)[i] ∈ a := by
      rw [List.getElem_append_left hlt]
      exact List.getElem_mem _
    have h1 := ha _ hmem
    rw [himg] at h1
    exact Bool.noConfusion h1
  have hj2 : j < a.length := by
    by_contra hge
    push_neg at hge
    have hmem : (a ++ b)[j] ∈ b := by
      rw [List.getElem_append_right hge]
      exact List.getElem_mem _
    have h1 := hb _ hmem
    rw [hcopy] at h1
    exact Bool.noConfusion h1
  omega

/-- C5: in the sequence of adapter calls issued by `sendToManyChat` for one
job, the image-URL custom-field write never precedes the copy-URL
custom-field write: whenever both occur, the copy-URL call occupies an
earlier position in the (sequentially awaited) call sequence. -/
theorem manychat_copy_before_image (cfg : ManyChatConfigRec) (payload : ManyChatPayloadRec)
    (i j : Nat) (hi : i < (sendToManyChat cfg payload).length)
    (hj : j < (sendToManyChat cfg payload).length)
    (himg : isImageCall ((sendToManyChat cfg payload).get ⟨i, hi⟩) = true)
    (hcopy : isCopyCall ((sendToManyChat cfg payload).get ⟨j, hj⟩) = true) : j < i := by
  have hsplit : ∃ a b, sendToManyChat cfg payload = a ++ b ∧
      (∀ c ∈ a, isImageCall c = false) ∧ (∀ c ∈ b, isCopyCall c = false) := by
    unfold sendToManyChat
    cases hk : cfg.apiKey with
    | none => exact ⟨[], [], by simp, by simp, by simp⟩
    | some k =>
      cases hp : jsParseIntOk payload.subscriber_id with
      | false => exact ⟨[], [], by simp [hp], by simp, by simp⟩
      | true =>
        refine ⟨mcCopyFieldCalls cfg payload,
          mcImageFieldCalls cfg payload ++ mcDirectCalls cfg payload, ?_, ?_, ?_⟩
        · simp [hp]
        · exact mcCopyFieldCalls_no_image cfg payload
        · exact mcLaterCalls_no_copy cfg payload
  obtain ⟨a, b, ht, ha, hb⟩ := hsplit
  exact ordered_of_split ht ha hb i j hi hj himg hcopy

/-- C5 witness: a configuration producing both field writes puts the
copy-URL write (position 0) before the image-URL write (position 1). -/
theorem manychat_copy_before_image_witness :
    sendToManyChat ⟨some "k".data, some "42".data, some "43".data, false⟩
        ⟨"123".data, "fn".data, "v".data, some "u".data⟩
      = [MCCall.setCopyField "42".data "u".data,
         MCCall.setImageField "43".data "v".data] ∧ (0 : Nat) < 1 := by
  refine ⟨by decide, ?_⟩
  exact manychat_copy_before_image
    ⟨some "k".data, some "42".data, some "43".data, false⟩
    ⟨"123".data, "fn".data, "v".data, some "u".data⟩
    1 0 (by decide) (by decide) (by decide) (by decide)

/-- One recorded failure while CLOSED, with the failure counter either
fresh or within the failure window: the counter grows by one and the
breaker opens exactly when the threshold is reached. -/
theorem execute_failure_closed (cb : CircuitBreaker) (t : Nat)
    (hstate : cb.state = .CLOSED)
    (hkeep : cb.failures = 0 ∨ t - cb.lastFailureTime ≤ cb.config.failureWindow) :
    (cb.execute t false).1 =
      if cb.config.failureThreshold ≤ cb.failures + 1 then
        { cb with state := .OPEN, failures := cb.failures + 1, lastFailureTime := t,
                  lastStateChange := t, totalRequests := cb.totalRequests + 1,
                  totalFailures := cb.totalFailures + 1 }
      else
        { cb with failures := cb.failures + 1, lastFailureTime := t,
                  totalRequests := cb.totalRequests + 1,
                  totalFailures := cb.totalFailures + 1 } := by
  obtain ⟨cfg, st, f, sc, lft, lsc, tr, tf⟩ := cb
  simp only at hstate hkeep
  subst hstate
  have hcond : ¬(0 < f ∧ cfg.failureWindow < t - lft) := by
    rcases hkeep with h | h
    · subst h
      simp
    · intro hx
      exact absurd hx.2 (Nat.not_lt.2 h)
  simp [CircuitBreaker.execute, CircuitBreaker.checkStateTransition,
    CircuitBreaker.onFailure, CircuitBreaker.transitionTo, hcond]

/-- One recorded success while HALF_OPEN: the success counter grows by one
and the breaker closes (clearing both counters) exactly when the success
threshold is reached. -/
theorem execute_success_halfopen (cb : CircuitBreaker) (t : Nat)
    (hstate : cb.state = .HALF_OPEN) :
    (cb.execute t true).1 =
      if cb.config.successThreshold ≤ cb.successes + 1 then
        { cb with state := .CLOSED, failures := 0, successes := 0, lastStateChange := t,
                  totalRequests := cb.totalRequests + 1 }
      else
        { cb with successes := cb.successes + 1,
                  totalRequests := cb.totalRequests + 1 } := by
  obtain ⟨cfg, st, f, sc, lft, lsc, tr, tf⟩ := cb
  simp only at hstate
  subst hstate
  simp [CircuitBreaker.execute, CircuitBreaker.checkStateTransition,
    CircuitBreaker.onSuccess, CircuitBreaker.transitionTo]

/-- A chain of failures whose adjacent gaps stay inside the failure window
drives a CLOSED breaker to OPEN once it completes the threshold. -/
theorem runFailures_opens :
    ∀ (rest : List Nat) (t : Nat) (cb : CircuitBreaker),
      cb.state = .CLOSED →
      cb.failures + (t :: rest).length = cb.config.failureThreshold →
      (cb.failures = 0 ∨ t - cb.lastFailureTime ≤ cb.config.failureWindow) →
      List.Chain' (fun a b => b - a ≤ cb.config.failureWindow) (t :: rest) →
      (runFailures cb (t :: rest)).state = .OPEN
  | [], t, cb, hs, hlen, hkeep, _ => by
    rw [runFailures]
    simp only [List.foldl]
    rw [execute_failure_closed cb t hs hkeep]
    rw [if_pos (by simp at hlen; omega)]
  | r :: rest, t, cb, hs, hlen, hkeep, hch => by
    rw [runFailures]
    simp only [List.foldl]
    rw [execute_failure_closed cb t hs hkeep]
    rw [if_neg (by simp at hlen; omega)]
    rw [List.chain'_cons] at hch
    have ih := runFailures_opens rest r
      { cb with failures := cb.failures + 1, lastFailureTime := t,
                totalRequests := cb.totalRequests + 1,
                totalFailures := cb.totalFailures + 1 }
      hs (by simp at hlen ⊢; omega) (Or.inr hch.1) hch.2
    exact ih

/-- A run of successes in HALF_OPEN closes the breaker with both counters
cleared once it completes the success threshold. -/
theorem runSuccesses_closes :
    ∀ (rest : List Nat) (t : Nat) (cb : CircuitBreaker),
      cb.state = .HALF_OPEN →
      cb.successes + (t :: rest).length = cb.config.successThreshold →
      (runSuccesses cb (t :: rest)).state = .CLOSED ∧
        (runSuccesses cb (t :: rest)).failures = 0 ∧
        (runSuccesses cb (t :: rest)).successes = 0
  | [], t, cb, hs, hlen => by
    rw [runSuccesses]
    simp only [List.foldl]
    rw [execute_success_halfopen cb t hs]
    rw [if_pos (by simp at hlen; omega)]
    exact ⟨rfl, rfl, rfl⟩
  | r :: rest, t, cb, hs, hlen => by
    rw [runSuccesses]
    simp only [List.foldl]
    rw [execute_success_halfopen cb t hs]
    rw [if_neg (by simp at hlen; omega)]
    exact runSuccesses_closes rest r
      { cb with successes := cb.successes + 1, totalRequests := cb.totalRequests + 1 }
      hs (by simp at hlen ⊢; omega)

/-- C6: the process-local breaker state machine: (1) from CLOSED with a
fresh failure counter, `failureThreshold` consecutive recorded failures
whose gaps stay within the failure window transition the breaker to OPEN;
(2) from HALF_OPEN with a fresh success counter, `successThreshold`
recorded successes transition it to CLOSED with failure and success
counters cleared; (3) a single recorded failure while HALF_OPEN returns it
to OPEN. -/
theorem circuitBreaker_transitions :
    (∀ (ts : List Nat) (cb : CircuitBreaker),
      cb.state = .CLOSED → cb.failures = 0 →
      ts.length = cb.config.failureThreshold → 0 < cb.config.failureThreshold →
      List.Chain' (fun a b => b - a ≤ cb.config.failureWindow) ts →
      (runFailures cb ts).state = .OPEN) ∧
    (∀ (ts : List Nat) (cb : CircuitBreaker),
      cb.state = .HALF_OPEN → cb.successes = 0 →
      ts.length = cb.config.successThreshold → 0 < cb.config.successThreshold →
      (runSuccesses cb ts).state = .CLOSED ∧ (runSuccesses cb ts).failures = 0 ∧
        (runSuccesses cb ts).successes = 0) ∧
    (∀ (t : Nat) (cb : CircuitBreaker), cb.state = .HALF_OPEN →
      (cb.execute t false).1.state = .OPEN) := by
  refine ⟨?_, ?_, ?_⟩
  · intro ts cb hs hf hlen hpos hch
    cases ts with
    | nil => rw [← hlen] at hpos; simp at hpos
    | cons t rest =>
      exact runFailures_opens rest t cb hs (by omega) (Or.inl hf) hch
  · intro ts cb hs hsc hlen hpos
    cases ts with
    | nil => rw [← hlen] at hpos; simp at hpos
    | cons t rest =>
      exact runSuccesses_closes rest t cb hs (by omega)
  · intro t cb hs
    obtain ⟨cfg, st, f, sc, lft, lsc, tr, tf⟩ := cb
    simp only at hs
    subst hs
    simp [CircuitBreaker.execute, CircuitBreaker.checkStateTransition,
      CircuitBreaker.onFailure, CircuitBreaker.transitionTo]

/-- C6 witness: with the `instagram-download`-style config (threshold 3,
window 120000, success threshold 1) three quick failures open the breaker;
with the `gemini` config (success threshold 2) two successes in HALF_OPEN
close it and clear the counters; and one failure in HALF_OPEN reopens it. -/
theorem circuitBreaker_transitions_witness :
    (runFailures ⟨⟨3, 60000, 1, 120000⟩, .CLOSED, 0, 0, 0, 0, 0, 0⟩ [0, 10, 20]).state
        = .OPEN ∧
    ((runSuccesses ⟨⟨5, 30000, 2, 60000⟩, .HALF_OPEN, 2, 0, 50, 90, 7, 2⟩
        [100, 200]).state = .CLOSED ∧
      (runSuccesses ⟨⟨5, 30000, 2, 60000⟩, .HALF_OPEN, 2, 0, 50, 90, 7, 2⟩
        [100, 200]).failures = 0 ∧
      (runSuccesses ⟨⟨5, 30000, 2, 60000⟩, .HALF_OPEN, 2, 0, 50, 90, 7, 2⟩
        [100, 200]).successes = 0) ∧
    ((⟨⟨5, 30000, 2, 60000⟩, .HALF_OPEN, 2, 1, 50, 90, 7, 2⟩ :
        CircuitBreaker).execute 95 false).1.state = .OPEN := by
  refine ⟨?_, ?_, ?_⟩
  · exact circuitBreaker_transitions.1 [0, 10, 20]
      ⟨⟨3, 60000, 1, 120000⟩, .CLOSED, 0, 0, 0, 0, 0, 0⟩
      rfl rfl rfl (by decide) (by simp [List.chain'_cons])
  · exact circuitBreaker_transitions.2.1 [100, 200]
      ⟨⟨5, 30000, 2, 60000⟩, .HALF_OPEN, 2, 0, 50, 90, 7, 2⟩
      rfl rfl rfl (by decide)
  · exact circuitBreaker_transitions.2.2 95
      ⟨⟨5, 30000, 2, 60000⟩, .HALF_OPEN, 2, 1, 50, 90, 7, 2⟩ rfl

/-- C7 counterexample: at the ceiling (counter 10 of 10, TTL 777 s) the
gate replies 429 with `retryAfter` 777, but the 429 response carries no
`X-RateLimit-Remaining: 0` header — the rate-limit headers are only set on
the admit path, so the claim's header clause fails. -/
theorem userRateLimiter_429_no_header :
    (createUserRateLimiter 10 3600 (some "123".data) true (some 10) 777).status
        = some 429 ∧
    (createUserRateLimiter 10 3600 (some "123".data) true (some 10) 777).retryAfter
        = some 777 ∧
    ("X-RateLimit-Remaining".data, "0".data) ∉
      (createUserRateLimiter 10 3600 (some "123".data) true (some 10) 777).headers := by
  decide

/-- C7 (amended): for a known subscriber whose hourly counter has reached
the ceiling, the quota gate replies 429 with `retryAfter` equal to the
remaining window TTL; the 429 response sets no headers at all (in
particular no `X-RateLimit-Remaining` — those headers are only set when the
request is admitted). -/
theorem userRateLimiter_429_amended (maxRequests windowSeconds : Nat) (sub : Str)
    (stored : Option Nat) (ttl : Int) (hover : maxRequests ≤ stored.getD 0) :
    createUserRateLimiter maxRequests windowSeconds (some sub) true stored ttl
      = ⟨some 429, some ttl, [], false, stored⟩ := by
  simp [createUserRateLimiter, hover]

/-- C7 witness: the amended 429 reply at the concrete over-limit state. -/
theorem userRateLimiter_429_witness :
    (10 : Nat) ≤ (some 10 : Option Nat).getD 0 ∧
    createUserRateLimiter 10 3600 (some "123".data) true (some 10) 777
      = ⟨some 429, some 777, [], false, some 10⟩ := by
  refine ⟨by decide, ?_⟩
  exact userRateLimiter_429_amended 10 3600 "123".data (some 10) 777 (by decide)

/-- C8 counterexample: with subscriber 1 on the waitlist since time 1 and
subscriber 2 since time 2, a request by subscriber 2 while a slot is free
promotes subscriber 2 to active while subscriber 1 is still waitlisted —
promotion through `betaAccessControl` is not oldest-first. -/
theorem betaAccessControl_not_oldest_first :
    betaAccessControl 5 50
        [⟨"1".data, .waitlist, none, 0, 1⟩, ⟨"2".data, .waitlist, none, 0, 2⟩]
        (some "2".data)
      = ([⟨"1".data, .waitlist, none, 0, 1⟩, ⟨"2".data, .active, some 1, 1, 2⟩],
         .allowed ⟨"2".data, .active, some 1, 1, 2⟩) ∧ (1 : Nat) < 2 := by
  decide

/-- No waitlisted user exists when the oldest-first scan finds none. -/
theorem earliestWaitlist_none :
    ∀ (l : List UserRec), earliestWaitlist l = none →
      ∀ v ∈ l, ¬v.accessStatus = .waitlist
  | [], _, v, hv, _ => by simp at hv
  | u :: rest, h, v, hv, hw => by
    simp only [earliestWaitlist] at h
    by_cases hu : u.accessStatus = .waitlist
    · rw [if_pos hu] at h
      cases hr : earliestWaitlist rest with
      | none =>
        rw [hr] at h
        change some u = none at h
        simp at h
      | some c =>
        rw [hr] at h
        change (if c.createdAt < u.createdAt then some c else some u) = none at h
        split at h <;> simp at h
    · rw [if_neg hu] at h
      rcases List.mem_cons.1 hv with rfl | hv2
      · exact hu hw
      · exact earliestWaitlist_none rest h v hv2 hw

/-- The oldest-first scan returns a waitlisted user of minimal creation
time. -/
theorem earliestWaitlist_min :
    ∀ (l : List UserRec) (b : UserRec), earliestWaitlist l = some b →
      ∀ v ∈ l, v.accessStatus = .waitlist → b.createdAt ≤ v.createdAt
  | [], b, h => by simp [earliestWaitlist] at h
  | u :: rest, b, h => by
    intro v hv hw
    simp only [earliestWaitlist] at h
    by_cases hu : u.accessStatus = .waitlist
    · rw [if_pos hu] at h
      cases hr : earliestWaitlist rest with
      | none =>
        rw [hr] at h
        change some u = some b at h
        simp at h
        subst h
        rcases List.mem_cons.1 hv with rfl | hv2
        · exact le_refl _
        · exact absurd hw (earliestWaitlist_none rest hr v hv2)
      | some c =>
        rw [hr] at h
        change (if c.createdAt < u.createdAt then some c else some u) = some b at h
        by_cases hc : c.createdAt < u.createdAt
        · rw [if_pos hc] at h
          simp at h
          subst h
          rcases List.mem_cons.1 hv with rfl | hv2
          · exact le_of_lt hc
          · exact earliestWaitlist_min rest c hr v hv2 hw
        · rw [if_neg hc] at h
          simp at h
          subst h
          rcases List.mem_cons.1 hv with rfl | hv2
          · exact le_refl _
          · push_neg at hc
            exact le_trans hc (earliestWaitlist_min rest c hr v hv2 hw)
    · rw [if_neg hu] at h
      rcases List.mem_cons.1 hv with rfl | hv2
      · exact absurd hw hu
      · exact earliestWaitlist_min rest b h v hv2 hw

/-- C8 (amended): the dedicated promotion routine
`promoteNextFromWaitlist` is strictly oldest-first — whenever it promotes a
user, no user with an earlier waitlist creation time is (or remains)
waitlisted; but the opportunistic promotion inside `betaAccessControl`
promotes whichever waitlisted user makes the request while a slot is free,
regardless of earlier waitlist entries (see the counterexample). -/
theorem promoteNextFromWaitlist_oldest_first (maxUsers : Nat)
    (users users2 : List UserRec) (u : UserRec)
    (h : promoteNextFromWaitlist maxUsers users = (users2, some u)) :
    ∀ v ∈ users, v.accessStatus = .waitlist → u.createdAt ≤ v.createdAt := by
  simp only [promoteNextFromWaitlist] at h
  cases hew : earliestWaitlist users with
  | none =>
    rw [hew] at h
    split at h <;> simp at h
  | some b =>
    rw [hew] at h
    split at h
    · simp at h
    · simp at h
      obtain ⟨-, hu⟩ := h
      intro v hv hw
      have hcreated : u.createdAt = b.createdAt := by rw [← hu]
      rw [hcreated]
      exact earliestWaitlist_min users b hew v hv hw

/-- C8 witness: `promoteNextFromWaitlist` on the two-user waitlist promotes
the user who joined at time 1, not the one from time 2. -/
theorem promoteNextFromWaitlist_witness :
    promoteNextFromWaitlist 5
        [⟨"1".data, .waitlist, none, 0, 1⟩, ⟨"2".data, .waitlist, none, 0, 2⟩]
      = ([⟨"1".data, .active, some 1, 0, 1⟩, ⟨"2".data, .waitlist, none, 0, 2⟩],
         some ⟨"1".data, .active, some 1, 0, 1⟩) ∧
    (⟨"1".data, .active, some 1, 0, 1⟩ : UserRec).createdAt
      ≤ (⟨"2".data, .waitlist, none, 0, 2⟩ : UserRec).createdAt := by
  refine ⟨by decide, ?_⟩
  exact promoteNextFromWaitlist_oldest_first 5
    [⟨"1".data, .waitlist, none, 0, 1⟩, ⟨"2".data, .waitlist, none, 0, 2⟩]
    [⟨"1".data, .active, some 1, 0, 1⟩, ⟨"2".data, .waitlist, none, 0, 2⟩]
    ⟨"1".data, .active, some 1, 0, 1⟩ (by decide)
    ⟨"2".data, .waitlist, none, 0, 2⟩ (by decide) (by decide)

/-- C9 counterexample: an unreplaced ManyChat placeholder in `user_idea` is
NOT coerced to undefined — `userIdeaSchema` is not wrapped in
`manyChatPreprocess`, so the placeholder is validated as text and rejected
for its braces, unlike the claimed coerce-then-validate pipeline. -/
theorem userIdea_placeholder_not_coerced :
    userIdeaParse (some "\x7b\x7bcuf_user_idea\x7d\x7d".data)
        = .err "User idea contains invalid characters".data ∧
    userIdeaParse (some "\x7b\x7bcuf_user_idea\x7d\x7d".data)
        ≠ userIdeaParseClaimed (some "\x7b\x7bcuf_user_idea\x7d\x7d".data) := by
  decide

/-- C9 (amended): the placeholder-to-undefined coercion applies exactly to
the fields wrapped in `manyChatPreprocess` — `tone_hint`, `language_hint`
and `mode` — where a `{{…}}`-shaped value is treated as absent before
validation (`mode` then falls back to its default `full`); `subscriber_id`,
`reel_url` and `user_idea` are validated as-is (see the counterexample). -/
theorem placeholder_coercion_hint_fields (s : Str)
    (h : (strStarts s "\x7b\x7b".data && strEnds s "\x7d\x7d".data) = true) :
    toneHintParse (some s) = .ok none ∧
    languageHintParse (some s) = .ok none ∧
    modeParse (some s) = .ok "full".data := by
  have hp : manyChatPreprocessVal (some s) = none := by
    simp [manyChatPreprocessVal, h]
  refine ⟨?_, ?_, ?_⟩ <;> simp [toneHintParse, languageHintParse, modeParse, hp]

/-- C9 witness: the three hint fields treat a concrete placeholder as
absent. -/
theorem placeholder_coercion_witness :
    (strStarts "\x7b\x7bcuf_tone\x7d\x7d".data "\x7b\x7b".data
      && strEnds "\x7b\x7bcuf_tone\x7d\x7d".data "\x7d\x7d".data) = true ∧
    toneHintParse (some "\x7b\x7bcuf_tone\x7d\x7d".data) = .ok none ∧
    languageHintParse (some "\x7b\x7bcuf_tone\x7d\x7d".data) = .ok none ∧
    modeParse (some "\x7b\x7bcuf_tone\x7d\x7d".data) = .ok "full".data := by
  refine ⟨by decide, ?_, ?_, ?_⟩
  · exact (placeholder_coercion_hint_fields "\x7b\x7bcuf_tone\x7d\x7d".data (by decide)).1
  · exact (placeholder_coercion_hint_fields "\x7b\x7bcuf_tone\x7d\x7d".data (by decide)).2.1
  · exact (placeholder_coercion_hint_fields "\x7b\x7bcuf_tone\x7d\x7d".data (by decide)).2.2

/-- C10: when the ephemeral counter store fails, `getAndIncrementVariation`
swallows the error and returns variation index 0 with `totalVariations` 0
and no soft-limit flag, unchanged store; the handler core, fed that index
0, consults the tier-2 script cache and on a hit replies with the cached
script without creating any job. -/
theorem variation_store_failure_graceful :
    (∀ (store : RedisNat) (s u i : Str),
      getAndIncrementVariation false store s u i = (store, ⟨0, false, false, 0⟩)) ∧
    (∀ (store : RedisNat) (s u i : Str) (cache : List ScriptRec) (jobs : List JobRec)
        (rid sub h : Str) (c : ScriptRec),
      cache.find? (fun sc => sc.requestHash == h) = some c →
      generateScriptCore (getAndIncrementVariation false store s u i).2.variationIndex
          cache jobs rid sub h = (jobs, .cachedResponse c.scriptText)) := by
  constructor
  · intro store s u i
    rfl
  · intro store s u i cache jobs rid sub h c hfind
    have h0 : (getAndIncrementVariation false store s u i).2.variationIndex = 0 := rfl
    rw [h0]
    simp [generateScriptCore, hfind]

/-- C10 witness: with a failing store and a cached script for the hash, the
handler core replies with the cached text and enqueues nothing. -/
theorem variation_store_failure_witness :
    List.find? (fun sc => sc.requestHash == "h".data)
        [(⟨"h".data, "txt".data⟩ : ScriptRec)] = some ⟨"h".data, "txt".data⟩ ∧
    generateScriptCore
        (getAndIncrementVariation false (fun _ => 0) "s".data "u".data "i".data).2.variationIndex
        [⟨"h".data, "txt".data⟩] [] "r".data "s".data "h".data
      = ([], .cachedResponse "txt".data) := by
  refine ⟨by decide, ?_⟩
  exact variation_store_failure_graceful.2 (fun _ => 0) "s".data "u".data "i".data
    [⟨"h".data, "txt".data⟩] [] "r".data "s".data "h".data ⟨"h".data, "txt".data⟩
    (by decide)

end ScriptFlow
